import Mathlib

/-!
Verification of the direct-bridge order-lifecycle engine.

Shallow embedding of `internal/messaging/handler.go` (the PLC-to-AGV
direct-action bridge): command classification, order construction,
correlation-state tracking and the status-aggregation policy.

Go strings are embedded as `List Char`; the helpers `strHasSuffix`,
`strContains`, `strStartsWith`, `splitOnChar` and `trimSpace` mirror the
`strings` package functions used by the source (`strings.HasSuffix`,
`strings.Contains`, `strings.Split`, `strings.TrimSpace` — the latter
restricted to ASCII whitespace, which is all the protocol ever carries).
Go maps (`activeOrders`, `canceledOrders`) are embedded as association
lists with lookup/insert/erase; map iteration order in `handleCancelCommand`
is unspecified in Go, and is modelled here as the association-list order
(none of the proved properties depend on which matching entry is picked).
The global `headerIDCounter` is an `int64` incremented once per
robot-bound message; it is embedded as `Nat` (the counter starts at 0 and
only ever increments by one, so `int64` overflow is unreachable).
Timestamp-derived order ids are environmental inputs: each command event
carries the id the generator would produce. Publish failures of the MQTT
client are modelled by a boolean event parameter.
-/

namespace DirectBridge

/-- Go strings, embedded as lists of characters. -/
abbrev Str := List Char

/-- Coercion from Lean string literals, used only to write constants. -/
def str (s : String) : Str := s.data

/-- Tests whether `p` occurs at the beginning of `s`
(the primitive under `strings.Contains`). -/
def strStartsWith : Str → Str → Bool
  | _, [] => true
  | [], _ :: _ => false
  | c :: cs, p :: ps => c = p && strStartsWith cs ps

/-- Embeds `strings.Contains`: `sub` occurs as a contiguous substring of `s`. -/
def strContains : Str → Str → Bool
  | [], sub => sub.isEmpty
  | c :: cs, sub => strStartsWith (c :: cs) sub || strContains cs sub

/-- Embeds `strings.HasSuffix`. -/
def strHasSuffix (s suffix : Str) : Bool :=
  decide (suffix.length ≤ s.length) && s.drop (s.length - suffix.length) = suffix

/-- Embeds `strings.Split` for a single-character separator: split around
every occurrence of `sep`; never returns an empty list. -/
def splitOnChar (sep : Char) : Str → List Str
  | [] => [[]]
  | c :: cs =>
      if c = sep then [] :: splitOnChar sep cs
      else
        match splitOnChar sep cs with
        | [] => [[c]]
        | p :: ps => (c :: p) :: ps

/-- ASCII whitespace, the fragment of `unicode.IsSpace` the protocol can carry. -/
def isSpaceChar (c : Char) : Bool :=
  c = ' ' || c = '\t' || c = '\n' || c = '\r' || c = '\x0b' || c = '\x0c'

/-- Embeds `strings.TrimSpace` (ASCII fragment). -/
def trimSpace (s : Str) : Str :=
  ((s.dropWhile isSpaceChar).reverse.dropWhile isSpaceChar).reverse

/-! ## Association-list embedding of the Go maps -/

/-- Lookup in an association list (embedding Go map indexing). -/
def lookupA (k : String) : List (String × Str) → Option Str
  | [] => none
  | (k', v) :: m => if k' = k then some v else lookupA k m

/-- Remove a key (embedding Go `delete`). -/
def eraseKey (k : String) (m : List (String × Str)) : List (String × Str) :=
  m.filter (fun p => p.1 ≠ k)

/-- Insert/overwrite a key (embedding Go map assignment). -/
def insertA (k : String) (v : Str) (m : List (String × Str)) : List (String × Str) :=
  (k, v) :: eraseKey k m

/-! ## Data model -/

/-- An action parameter of an order (`types.ActionParameter`). -/
structure ActionParameter where
  key : Str
  value : Str
deriving DecidableEq, Repr

/-- The mutable state of `DirectActionHandler` together with the global
`headerIDCounter` (an `int64` starting at 0 and incremented once per
robot-bound message; overflow is unreachable, so it is embedded as `Nat`). -/
structure BridgeState where
  activeOrders : List (String × Str)
  canceledOrders : List (String × Str)
  headerIDCounter : Nat
deriving DecidableEq, Repr

/-- Embeds `NewDirectActionHandler`: both maps empty; the counter starts at 0. -/
def initState : BridgeState := ⟨[], [], 0⟩

/-- A message published to a robot-bound topic: either an order document
(`publishOrder`) or a cancel instant-action document (`sendCancelOrder`),
with the header id it carries. -/
inductive RobotMsg where
  | order (headerId : Nat) (orderId : String) (actionType : Str)
      (params : List ActionParameter)
  | instantCancel (headerId : Nat)
deriving DecidableEq, Repr

/-- The header id carried by a robot-bound message. -/
def RobotMsg.headerId : RobotMsg → Nat
  | .order h _ _ _ => h
  | .instantCancel h => h

/-- Everything one handler invocation publishes: responses on the PLC
response topic, and robot-bound messages. -/
structure Output where
  plc : List Str
  robot : List RobotMsg
deriving DecidableEq, Repr

/-! ## Command classification and small helpers -/

/-- Embeds `isDirectActionCommand`: ends with `:I` or contains `:T`. -/
def isDirectActionCommand (commandStr : Str) : Bool :=
  strHasSuffix commandStr (str ":I") || strContains commandStr (str ":T")

/-- Embeds `isCancelCommand`: ends with `:C`. -/
def isCancelCommand (commandStr : Str) : Bool :=
  strHasSuffix commandStr (str ":C")

/-- Embeds `extractBaseCommand`: the part before the first `:` (the head of
the split, which is never empty). -/
def extractBaseCommand (command : Str) : Str :=
  match splitOnChar ':' command with
  | [] => command
  | p :: _ => p

/-- Embeds `sendPLCResponse` composed with `types.NewPLCResponse` and
`ToResponseString`: the published response string is
`extractBaseCommand command ++ ":" ++ status`. -/
def plcResp (command : Str) (status : Char) : Str :=
  extractBaseCommand command ++ [':', status]

/-- Embeds `parseArmParam`: `"R"` or empty → `right`; `"L"` → `left`;
default `right`. -/
def parseArmParam (armParam : Str) : Str :=
  if armParam = str "R" || armParam = str "" then str "right"
  else if armParam = str "L" then str "left"
  else str "right"

/-- Embeds `buildActionParameters`: the action type and parameters for command type
`I` (inference) or `T` (trajectory); `none` embeds the `("", nil)` error
return for any other character. -/
def buildActionParameters (baseCommand : Str) (commandType : Char) (armParam : Str) :
    Option (Str × List ActionParameter) :=
  if commandType = 'I' then
    some (str "Roboligent Robin - Inference",
      [⟨str "inference_name", baseCommand⟩])
  else if commandType = 'T' then
    some (str "Roboligent Robin - Follow Trajectory",
      [⟨str "trajectory_name", baseCommand⟩, ⟨str "arm", parseArmParam armParam⟩])
  else none

/-! ## Command handling -/

/-- Embeds `handleDirectAction`. The generated order id is an environmental input
(`newOrderId`, produced by the timestamp-based `generateOrderID`), and
`pubOk` tells whether the MQTT publish succeeds. The result is `none`
exactly when the Go code panics: `cmdType := rune(parts[1][0])` indexes an
empty second field. On the success path `sendDirectActionOrder` draws a
fresh header id (`getNextHeaderID` increments the shared counter) before
publishing, and the order id is recorded in `activeOrders` only after a
successful publish. -/
def handleDirectAction (st : BridgeState) (commandStr : Str)
    (newOrderId : String) (pubOk : Bool) : Option (BridgeState × Output) :=
  match splitOnChar ':' commandStr with
  | p0 :: p1 :: rest =>
    match p1 with
    | [] => none
    | c :: _ =>
      let armParam : Str := match rest with | a :: _ => a | [] => []
      match buildActionParameters p0 c armParam with
      | none => some (st, ⟨[plcResp commandStr 'F'], []⟩)
      | some (actionType, params) =>
        let headerId := st.headerIDCounter + 1
        if pubOk then
          some ({ st with
                    headerIDCounter := headerId,
                    activeOrders := insertA newOrderId commandStr st.activeOrders },
                ⟨[], [RobotMsg.order headerId newOrderId actionType params]⟩)
        else
          some ({ st with headerIDCounter := headerId },
                ⟨[plcResp commandStr 'F'], []⟩)
  | _ => some (st, ⟨[plcResp commandStr 'F'], []⟩)

/-- Embeds `handleCancelCommand`: find an active order whose originating command has
the same base command (Go iterates the map and keeps the first match; the
association-list order stands in for Go's unspecified iteration order).
The Go code signals "not found" by the sentinel `targetOrderID == ""`, so a
match whose key is the empty string is also treated as not found. On a
match, `sendCancelOrder` draws a fresh header id and publishes the cancel
instant action; only on success is the entry moved from `activeOrders` to
`canceledOrders`. -/
def handleCancelCommand (st : BridgeState) (commandStr : Str) (pubOk : Bool) :
    BridgeState × Output :=
  let baseCommand := extractBaseCommand commandStr
  match st.activeOrders.find? (fun p => extractBaseCommand p.2 = baseCommand) with
  | none => (st, ⟨[plcResp commandStr 'F'], []⟩)
  | some (targetOrderID, _) =>
    if targetOrderID = "" then (st, ⟨[plcResp commandStr 'F'], []⟩)
    else
      let headerId := st.headerIDCounter + 1
      if pubOk then
        ({ st with
             headerIDCounter := headerId,
             activeOrders := eraseKey targetOrderID st.activeOrders,
             canceledOrders := insertA targetOrderID commandStr st.canceledOrders },
         ⟨[], [RobotMsg.instantCancel headerId]⟩)
      else
        ({ st with headerIDCounter := headerId },
         ⟨[plcResp commandStr 'F'], []⟩)

/-- Embeds `HandlePLCCommand`: trim the payload, dispatch cancel commands first,
then direct actions; everything else is rejected with a Failed response. -/
def handlePLCCommand (st : BridgeState) (payload : Str)
    (newOrderId : String) (pubOk : Bool) : Option (BridgeState × Output) :=
  let commandStr := trimSpace payload
  if isCancelCommand commandStr then
    some (handleCancelCommand st commandStr pubOk)
  else if !isDirectActionCommand commandStr then
    some (st, ⟨[plcResp commandStr 'F'], []⟩)
  else
    handleDirectAction st commandStr newOrderId pubOk

/-! ## Robot state handling -/

/-- One element of the reported `actionStates` array, summarised to the one
field the handler reads: `some s` when the element is a JSON object whose
`actionStatus` is the string `s`; `none` when the element is not an object
or has no string `actionStatus` (such elements are skipped by the code). -/
abbrev ActionEntry := Option String

/-- A decoded robot state report: the `orderId` string when present, and the
`actionStates` array when present. (A payload that is not valid JSON is
dropped before reaching the handler and corresponds to no event at all.) -/
structure StateReport where
  orderId : Option String
  actionStates : Option (List ActionEntry)
deriving DecidableEq, Repr

/-- The `statusCounts` map of `processActionStates`: how many reported
actions carry exactly the status `s`. -/
def statusCount (actionStates : List ActionEntry) (s : String) : Nat :=
  actionStates.count (some s)

/-- Embeds `processActionStates`: count the statuses, then decide by priority —
FAILED (terminal, Failed), FINISHED with nothing in flight (terminal,
Success), RUNNING, INITIALIZING, WAITING (all non-terminal), otherwise no
response. Terminal verdicts delete the order from `activeOrders`. -/
def processActionStates (st : BridgeState) (orderID : String)
    (originalCommand : Str) (actionStates : List ActionEntry) :
    BridgeState × Output :=
  let c := statusCount actionStates
  if c "FAILED" > 0 then
    ({ st with activeOrders := eraseKey orderID st.activeOrders },
     ⟨[plcResp originalCommand 'F'], []⟩)
  else if c "FINISHED" > 0 ∧ c "RUNNING" = 0 ∧ c "INITIALIZING" = 0 ∧ c "WAITING" = 0 then
    ({ st with activeOrders := eraseKey orderID st.activeOrders },
     ⟨[plcResp originalCommand 'S'], []⟩)
  else if c "RUNNING" > 0 then
    (st, ⟨[plcResp originalCommand 'R'], []⟩)
  else if c "INITIALIZING" > 0 then
    (st, ⟨[plcResp originalCommand 'I'], []⟩)
  else if c "WAITING" > 0 then
    (st, ⟨[plcResp originalCommand 'W'], []⟩)
  else
    (st, ⟨[], []⟩)

/-- Embeds `processCanceledOrderStates`: scan the reported actions in report order;
the first FAILED answers the cancel command with Failed, the first FINISHED
with Success; either deletes the order from `canceledOrders` and stops the
scan; every other entry is skipped. -/
def processCanceledOrderStates (st : BridgeState) (orderID : String)
    (originalCancelCommand : Str) : List ActionEntry → BridgeState × Output
  | [] => (st, ⟨[], []⟩)
  | some s :: rest =>
    if s = "FAILED" then
      ({ st with canceledOrders := eraseKey orderID st.canceledOrders },
       ⟨[plcResp originalCancelCommand 'F'], []⟩)
    else if s = "FINISHED" then
      ({ st with canceledOrders := eraseKey orderID st.canceledOrders },
       ⟨[plcResp originalCancelCommand 'S'], []⟩)
    else processCanceledOrderStates st orderID originalCancelCommand rest
  | none :: rest => processCanceledOrderStates st orderID originalCancelCommand rest

/-- Embeds `HandleRobotState`: require a non-empty `orderId`; look it up first in
`canceledOrders` (and return after that branch whether or not the report
carries actions), else in `activeOrders`; reports for unknown orders are
discarded. -/
def handleRobotState (st : BridgeState) (report : StateReport) :
    BridgeState × Output :=
  match report.orderId with
  | none => (st, ⟨[], []⟩)
  | some orderID =>
    if orderID ≠ "" then
      match lookupA orderID st.canceledOrders with
      | some originalCancelCommand =>
        match report.actionStates with
        | some actionStates =>
          processCanceledOrderStates st orderID originalCancelCommand actionStates
        | none => (st, ⟨[], []⟩)
      | none =>
        match lookupA orderID st.activeOrders with
        | some originalCommand =>
          match report.actionStates with
          | some actionStates =>
            processActionStates st orderID originalCommand actionStates
          | none => (st, ⟨[], []⟩)
        | none => (st, ⟨[], []⟩)
    else (st, ⟨[], []⟩)

/-! ## Event traces -/

/-- One inbound message delivered to the handler: a PLC command payload
(together with the order id the timestamp-based generator would produce and
whether the MQTT publish succeeds), or a robot state report. -/
inductive Event where
  | plc (payload : Str) (newOrderId : String) (pubOk : Bool)
  | robot (report : StateReport)
deriving Repr

/-- One handler invocation; `none` when the invocation panics (which kills
the process, so the trace ends there). -/
def step (st : BridgeState) : Event → Option (BridgeState × Output)
  | .plc payload newOrderId pubOk => handlePLCCommand st payload newOrderId pubOk
  | .robot report => some (handleRobotState st report)

/-- All robot-bound messages published while handling a list of inbound
events, in publish order; a panic ends the trace. -/
def runRobot (st : BridgeState) : List Event → List RobotMsg
  | [] => []
  | e :: es =>
    match step st e with
    | none => []
    | some (st', out) => out.robot ++ runRobot st' es

/-- The generated order id of a PLC command event is fresh: the spec's id
invariant ("an orderId, once generated, is never reused") specialised to
the two maps. -/
def FreshFor (st : BridgeState) : Event → Prop
  | .plc _ newOrderId _ =>
      lookupA newOrderId st.activeOrders = none ∧
      lookupA newOrderId st.canceledOrders = none
  | .robot _ => True

/-- The states the tracker can reach from the initial state under any
sequence of command and state-report handling operations, with freshly
generated order ids. -/
inductive Reachable : BridgeState → Prop where
  | init : Reachable initState
  | next {st st' : BridgeState} {e : Event} {out : Output} :
      Reachable st → FreshFor st e → step st e = some (st', out) →
      Reachable st'

/-! ## Association-list lemmas -/

theorem lookupA_eraseKey_self (k : String) (m : List (String × Str)) :
    lookupA k (eraseKey k m) = none := by
  induction m with
  | nil => rfl
  | cons p m ih =>
    obtain ⟨k', v⟩ := p
    by_cases h : k' = k
    · simpa [eraseKey, List.filter_cons, h] using ih
    · simpa [eraseKey, List.filter_cons, h, lookupA] using ih

theorem lookupA_eraseKey_ne {k t : String} (m : List (String × Str)) (h : k ≠ t) :
    lookupA k (eraseKey t m) = lookupA k m := by
  induction m with
  | nil => rfl
  | cons p m ih =>
    obtain ⟨k', v⟩ := p
    simp only [eraseKey, List.filter_cons, ne_eq, decide_not] at ih ⊢
    by_cases h' : k' = t
    · simp [h', lookupA, Ne.symm h, ih]
    · by_cases h'' : k' = k <;> simp [h', lookupA, h'', h, ih]

theorem lookupA_eraseKey_some {k t : String} {m : List (String × Str)} {v : Str}
    (h : lookupA k (eraseKey t m) = some v) : lookupA k m = some v := by
  by_cases hk : k = t
  · subst hk
    rw [lookupA_eraseKey_self] at h
    exact absurd h (by simp)
  · rwa [lookupA_eraseKey_ne m hk] at h

theorem lookupA_insertA_self (k : String) (v : Str) (m : List (String × Str)) :
    lookupA k (insertA k v m) = some v := by
  simp [insertA, lookupA]

theorem lookupA_insertA_ne {k t : String} (v : Str) (m : List (String × Str))
    (h : k ≠ t) : lookupA k (insertA t v m) = lookupA k m := by
  simp only [insertA, lookupA, if_neg (fun hh : t = k => h hh.symm)]
  exact lookupA_eraseKey_ne m h

/-! ## String lemmas -/

theorem splitOnChar_ne_nil (sep : Char) (s : Str) : splitOnChar sep s ≠ [] := by
  cases s with
  | nil => simp [splitOnChar]
  | cons c cs =>
    by_cases h : c = sep
    · simp [splitOnChar, h]
    · simp only [splitOnChar, if_neg h]
      cases hs : splitOnChar sep cs <;> simp

theorem splitOnChar_head (sep : Char) (s : Str) :
    ∃ ps, splitOnChar sep s = s.takeWhile (fun c => !(c = sep)) :: ps := by
  induction s with
  | nil => exact ⟨[], rfl⟩
  | cons c cs ih =>
    by_cases h : c = sep
    · exact ⟨splitOnChar sep cs, by simp [splitOnChar, h, List.takeWhile]⟩
    · obtain ⟨ps, hps⟩ := ih
      refine ⟨ps, ?_⟩
      simp [splitOnChar, h, hps, List.takeWhile]

theorem extractBaseCommand_eq_takeWhile (s : Str) :
    extractBaseCommand s = s.takeWhile (fun c => !(c = ':')) := by
  obtain ⟨ps, hps⟩ := splitOnChar_head ':' s
  simp [extractBaseCommand, hps]

theorem length_splitOnChar_of_mem {sep : Char} {s : Str} (h : sep ∈ s) :
    2 ≤ (splitOnChar sep s).length := by
  induction s with
  | nil => cases h
  | cons c cs ih =>
    by_cases hc : c = sep
    · have h1 : 1 ≤ (splitOnChar sep cs).length :=
        List.length_pos.mpr (splitOnChar_ne_nil sep cs)
      simp only [splitOnChar, if_pos hc, List.length_cons]
      omega
    · have hmem : sep ∈ cs := by
        cases List.mem_cons.mp h with
        | inl h' => exact absurd h'.symm hc
        | inr h' => exact h'
      have h2 := ih hmem
      simp only [splitOnChar, if_neg hc]
      cases hs : splitOnChar sep cs with
      | nil => exact absurd hs (splitOnChar_ne_nil sep cs)
      | cons p ps =>
        rw [hs] at h2
        simpa using h2

theorem mem_of_strHasSuffix {s suffix : Str} {c : Char}
    (h : strHasSuffix s suffix = true) (hc : c ∈ suffix) : c ∈ s := by
  simp only [strHasSuffix, Bool.and_eq_true, decide_eq_true_eq] at h
  obtain ⟨-, h2⟩ := h
  have hmem : c ∈ s.drop (s.length - suffix.length) := by rw [h2]; exact hc
  exact List.mem_of_mem_drop hmem

theorem head_eq_of_strStartsWith {s : Str} {p : Char} {ps : Str}
    (h : strStartsWith s (p :: ps) = true) : ∃ t, s = p :: t := by
  cases s with
  | nil => simp [strStartsWith] at h
  | cons c cs =>
    simp only [strStartsWith, Bool.and_eq_true, decide_eq_true_eq] at h
    exact ⟨cs, by rw [h.1]⟩

theorem mem_of_strContains {s : Str} {p : Char} {ps : Str}
    (h : strContains s (p :: ps) = true) : p ∈ s := by
  induction s with
  | nil => simp [strContains, List.isEmpty] at h
  | cons c cs ih =>
    simp only [strContains, Bool.or_eq_true] at h
    cases h with
    | inl h' =>
      obtain ⟨t, ht⟩ := head_eq_of_strStartsWith h'
      rw [List.cons.injEq] at ht
      exact ht.1 ▸ List.mem_cons_self c cs
    | inr h' => exact List.mem_cons_of_mem c (ih h')

theorem colon_mem_of_isDirectAction {s : Str}
    (h : isDirectActionCommand s = true) : ':' ∈ s := by
  simp only [isDirectActionCommand, Bool.or_eq_true] at h
  cases h with
  | inl h' => exact mem_of_strHasSuffix h' (by simp [str])
  | inr h' => exact mem_of_strContains h'

/-! ## Spec-side verdict functions

These two definitions follow the words of the specification (§4.5), not the
code, and are compared with the embedded reduction functions. -/

/-- Verdict letter the spec assigns to given status counts, by priority:
any FAILED → Failed; else any FINISHED and none RUNNING, INITIALIZING or
WAITING → Success; else any RUNNING → Running; else any INITIALIZING →
Initializing; else any WAITING → Waiting; else no verdict. -/
def specVerdict (c : String → Nat) : Option Char :=
  if c "FAILED" > 0 then some 'F'
  else if c "FINISHED" > 0 ∧ c "RUNNING" = 0 ∧ c "INITIALIZING" = 0 ∧ c "WAITING" = 0 then
    some 'S'
  else if c "RUNNING" > 0 then some 'R'
  else if c "INITIALIZING" > 0 then some 'I'
  else if c "WAITING" > 0 then some 'W'
  else none

/-- Status of the first reported action whose status is FAILED or FINISHED,
scanning in report order; `none` when no action reports either. -/
def firstTerminal : List ActionEntry → Option String
  | [] => none
  | some s :: rest =>
      if s = "FAILED" ∨ s = "FINISHED" then some s else firstTerminal rest
  | none :: rest => firstTerminal rest

theorem processCanceled_failed (st : BridgeState) (orderID : String)
    (ccmd : Str) (acts : List ActionEntry)
    (h : firstTerminal acts = some "FAILED") :
    processCanceledOrderStates st orderID ccmd acts =
      ({ st with canceledOrders := eraseKey orderID st.canceledOrders },
       ⟨[plcResp ccmd 'F'], []⟩) := by
  induction acts with
  | nil => simp [firstTerminal] at h
  | cons e rest ih =>
    match e with
    | none =>
      rw [firstTerminal] at h
      exact ih h
    | some s =>
      rw [firstTerminal] at h
      by_cases hs : s = "FAILED" ∨ s = "FINISHED"
      · rw [if_pos hs] at h
        have hs' : s = "FAILED" := by simpa using h
        simp [processCanceledOrderStates, hs']
      · rw [if_neg hs] at h
        have h1 : ¬ s = "FAILED" := fun hh => hs (Or.inl hh)
        have h2 : ¬ s = "FINISHED" := fun hh => hs (Or.inr hh)
        simpa [processCanceledOrderStates, h1, h2] using ih h

theorem processCanceled_finished (st : BridgeState) (orderID : String)
    (ccmd : Str) (acts : List ActionEntry)
    (h : firstTerminal acts = some "FINISHED") :
    processCanceledOrderStates st orderID ccmd acts =
      ({ st with canceledOrders := eraseKey orderID st.canceledOrders },
       ⟨[plcResp ccmd 'S'], []⟩) := by
  induction acts with
  | nil => simp [firstTerminal] at h
  | cons e rest ih =>
    match e with
    | none =>
      rw [firstTerminal] at h
      exact ih h
    | some s =>
      rw [firstTerminal] at h
      by_cases hs : s = "FAILED" ∨ s = "FINISHED"
      · rw [if_pos hs] at h
        have hs' : s = "FINISHED" := by simpa using h
        have h1 : ¬ s = "FAILED" := by simp [hs']
        simp [processCanceledOrderStates, hs', h1]
      · rw [if_neg hs] at h
        have h1 : ¬ s = "FAILED" := fun hh => hs (Or.inl hh)
        have h2 : ¬ s = "FINISHED" := fun hh => hs (Or.inr hh)
        simpa [processCanceledOrderStates, h1, h2] using ih h

theorem processCanceled_none (st : BridgeState) (orderID : String)
    (ccmd : Str) (acts : List ActionEntry)
    (h : firstTerminal acts = none) :
    processCanceledOrderStates st orderID ccmd acts = (st, ⟨[], []⟩) := by
  induction acts with
  | nil => rfl
  | cons e rest ih =>
    match e with
    | none =>
      rw [firstTerminal] at h
      exact ih h
    | some s =>
      rw [firstTerminal] at h
      by_cases hs : s = "FAILED" ∨ s = "FINISHED"
      · rw [if_pos hs] at h
        exact absurd h (by simp)
      · rw [if_neg hs] at h
        have h1 : ¬ s = "FAILED" := fun hh => hs (Or.inl hh)
        have h2 : ¬ s = "FINISHED" := fun hh => hs (Or.inr hh)
        simpa [processCanceledOrderStates, h1, h2] using ih h

/-- Dispatch of a report for an order tracked in `canceledOrders`. -/
theorem handleRobotState_canceled (st : BridgeState) (orderID : String)
    (ccmd : Str) (acts : List ActionEntry)
    (hne : orderID ≠ "")
    (hcanc : lookupA orderID st.canceledOrders = some ccmd) :
    handleRobotState st ⟨some orderID, some acts⟩ =
      processCanceledOrderStates st orderID ccmd acts := by
  simp [handleRobotState, hne, hcanc]

/-- Dispatch of a report for an order tracked in `activeOrders` only. -/
theorem handleRobotState_active (st : BridgeState) (orderID : String)
    (cmd : Str) (acts : List ActionEntry)
    (hne : orderID ≠ "")
    (hcanc : lookupA orderID st.canceledOrders = none)
    (hact : lookupA orderID st.activeOrders = some cmd) :
    handleRobotState st ⟨some orderID, some acts⟩ =
      processActionStates st orderID cmd acts := by
  simp [handleRobotState, hne, hcanc, hact]

/-- Permutation invariance of the count-based active-order reduction. -/
theorem processActionStates_perm (st : BridgeState) (orderID : String) (cmd : Str)
    {l1 l2 : List ActionEntry} (hperm : l1.Perm l2) :
    processActionStates st orderID cmd l1 = processActionStates st orderID cmd l2 := by
  have hc : statusCount l1 = statusCount l2 :=
    funext fun s => hperm.countP_eq (fun x => x == some s)
  unfold processActionStates
  rw [hc]

/-! ## Claim theorems -/

/-- C1: for every state report whose orderId is tracked in ActiveOrders, the
emitted response is decided from the counts of the reported action statuses
by priority (FAILED, then FINISHED with nothing in flight, then RUNNING,
INITIALIZING, WAITING), and when no recognized status occurs no response is
emitted for the report. -/
theorem active_verdict_by_status_priority (st : BridgeState) (orderID : String)
    (cmd : Str) (acts : List ActionEntry)
    (hne : orderID ≠ "")
    (hcanc : lookupA orderID st.canceledOrders = none)
    (hact : lookupA orderID st.activeOrders = some cmd) :
    (handleRobotState st ⟨some orderID, some acts⟩).2.plc =
      ((specVerdict (statusCount acts)).map (plcResp cmd)).toList := by
  rw [handleRobotState_active st orderID cmd acts hne hcanc hact]
  simp only [processActionStates, specVerdict]
  split_ifs <;> simp

/-- Witness for C1: a report of one FINISHED action for an active PICK order
yields exactly the Success response. -/
theorem active_verdict_by_status_priority_witness :
    (handleRobotState ⟨[("o1", str "PICK:I")], [], 5⟩
        ⟨some "o1", some [some "FINISHED"]⟩).2.plc =
      ((specVerdict (statusCount [some "FINISHED"])).map (plcResp (str "PICK:I"))).toList :=
  active_verdict_by_status_priority ⟨[("o1", str "PICK:I")], [], 5⟩ "o1"
    (str "PICK:I") [some "FINISHED"] (by decide) (by decide) (by decide)

/-- C2: for every state report whose orderId is tracked in CanceledOrders,
the actions are scanned in report order; the first FAILED action yields the
Failed response for the originating cancel command, the first FINISHED
yields the Success response, either removes the orderId from
CanceledOrders, and all other statuses are skipped (no terminal status in
the whole report leaves everything unchanged and emits nothing). -/
theorem canceled_scan_first_terminal (st : BridgeState) (orderID : String)
    (ccmd : Str) (acts : List ActionEntry)
    (hne : orderID ≠ "")
    (hcanc : lookupA orderID st.canceledOrders = some ccmd) :
    (firstTerminal acts = some "FAILED" →
        handleRobotState st ⟨some orderID, some acts⟩ =
          ({ st with canceledOrders := eraseKey orderID st.canceledOrders },
           ⟨[plcResp ccmd 'F'], []⟩)) ∧
    (firstTerminal acts = some "FINISHED" →
        handleRobotState st ⟨some orderID, some acts⟩ =
          ({ st with canceledOrders := eraseKey orderID st.canceledOrders },
           ⟨[plcResp ccmd 'S'], []⟩)) ∧
    (firstTerminal acts = none →
        handleRobotState st ⟨some orderID, some acts⟩ = (st, ⟨[], []⟩)) := by
  rw [handleRobotState_canceled st orderID ccmd acts hne hcanc]
  exact ⟨processCanceled_failed st orderID ccmd acts,
         processCanceled_finished st orderID ccmd acts,
         processCanceled_none st orderID ccmd acts⟩

/-- Witness for C2: a canceled order whose report carries RUNNING then
FAILED answers the cancel command with Failed and drops the tracker entry. -/
theorem canceled_scan_first_terminal_witness :
    handleRobotState ⟨[], [("o1", str "PICK:C")], 3⟩
        ⟨some "o1", some [some "RUNNING", some "FAILED"]⟩ =
      ({ BridgeState.mk [] [("o1", str "PICK:C")] 3 with
           canceledOrders := eraseKey "o1" [("o1", str "PICK:C")] },
       ⟨[plcResp (str "PICK:C") 'F'], []⟩) :=
  (canceled_scan_first_terminal ⟨[], [("o1", str "PICK:C")], 3⟩ "o1" (str "PICK:C")
    [some "RUNNING", some "FAILED"] (by decide) (by decide)).1 (by decide)

/-- C3: for an active-order state report, a terminal verdict (Success or
Failed) removes exactly that orderId from ActiveOrders and a non-terminal
verdict (Waiting, Initializing or Running) leaves ActiveOrders unchanged;
in both cases every other ActiveOrders entry and all of CanceledOrders are
unchanged. -/
theorem active_verdict_frame_effect (st : BridgeState) (orderID : String)
    (cmd : Str) (acts : List ActionEntry)
    (hne : orderID ≠ "")
    (hcanc : lookupA orderID st.canceledOrders = none)
    (hact : lookupA orderID st.activeOrders = some cmd) :
    ((handleRobotState st ⟨some orderID, some acts⟩).1.canceledOrders =
        st.canceledOrders) ∧
    (specVerdict (statusCount acts) = some 'F' ∨ specVerdict (statusCount acts) = some 'S' →
        (handleRobotState st ⟨some orderID, some acts⟩).1.activeOrders =
          eraseKey orderID st.activeOrders) ∧
    (specVerdict (statusCount acts) = some 'R' ∨ specVerdict (statusCount acts) = some 'I' ∨
        specVerdict (statusCount acts) = some 'W' →
        (handleRobotState st ⟨some orderID, some acts⟩).1.activeOrders =
          st.activeOrders) ∧
    (∀ k, k ≠ orderID →
        lookupA k (handleRobotState st ⟨some orderID, some acts⟩).1.activeOrders =
          lookupA k st.activeOrders) := by
  rw [handleRobotState_active st orderID cmd acts hne hcanc hact]
  simp only [processActionStates, specVerdict]
  split_ifs <;>
    simp_all [fun (k : String) (hk : k ≠ orderID) =>
      lookupA_eraseKey_ne (t := orderID) st.activeOrders hk]

/-- Witness for C3: a FAILED report for the active PICK order removes that
entry and leaves the rest of the state alone. -/
theorem active_verdict_frame_effect_witness :
    ((handleRobotState ⟨[("o1", str "PICK:I")], [], 5⟩
        ⟨some "o1", some [some "FAILED"]⟩).1.canceledOrders = ([] : List (String × Str))) ∧
    (specVerdict (statusCount [some "FAILED"]) = some 'F' ∨
        specVerdict (statusCount [some "FAILED"]) = some 'S' →
        (handleRobotState ⟨[("o1", str "PICK:I")], [], 5⟩
            ⟨some "o1", some [some "FAILED"]⟩).1.activeOrders =
          eraseKey "o1" [("o1", str "PICK:I")]) ∧
    (specVerdict (statusCount [some "FAILED"]) = some 'R' ∨
        specVerdict (statusCount [some "FAILED"]) = some 'I' ∨
        specVerdict (statusCount [some "FAILED"]) = some 'W' →
        (handleRobotState ⟨[("o1", str "PICK:I")], [], 5⟩
            ⟨some "o1", some [some "FAILED"]⟩).1.activeOrders =
          [("o1", str "PICK:I")]) ∧
    (∀ k, k ≠ "o1" →
        lookupA k (handleRobotState ⟨[("o1", str "PICK:I")], [], 5⟩
            ⟨some "o1", some [some "FAILED"]⟩).1.activeOrders =
          lookupA k [("o1", str "PICK:I")]) :=
  active_verdict_frame_effect ⟨[("o1", str "PICK:I")], [], 5⟩ "o1"
    (str "PICK:I") [some "FAILED"] (by decide) (by decide) (by decide)

/-- C9: two active-order state reports whose actionStates lists are
permutations of each other produce the same verdict and the same map
effect; the reduction depends only on the status counts. -/
theorem active_reduction_permutation_invariant (st : BridgeState) (orderID : String)
    (cmd : Str) {l1 l2 : List ActionEntry} (hperm : l1.Perm l2)
    (hne : orderID ≠ "")
    (hcanc : lookupA orderID st.canceledOrders = none)
    (hact : lookupA orderID st.activeOrders = some cmd) :
    handleRobotState st ⟨some orderID, some l1⟩ =
      handleRobotState st ⟨some orderID, some l2⟩ := by
  rw [handleRobotState_active st orderID cmd l1 hne hcanc hact,
      handleRobotState_active st orderID cmd l2 hne hcanc hact]
  exact processActionStates_perm st orderID cmd hperm

/-- Witness for C9: reordering a FINISHED/RUNNING report does not change
the handler's result. -/
theorem active_reduction_permutation_invariant_witness :
    handleRobotState ⟨[("o1", str "PICK:I")], [], 5⟩
        ⟨some "o1", some [some "FINISHED", some "RUNNING"]⟩ =
      handleRobotState ⟨[("o1", str "PICK:I")], [], 5⟩
        ⟨some "o1", some [some "RUNNING", some "FINISHED"]⟩ :=
  active_reduction_permutation_invariant ⟨[("o1", str "PICK:I")], [], 5⟩ "o1"
    (str "PICK:I") (List.Perm.swap (some "RUNNING") (some "FINISHED") [])
    (by decide) (by decide) (by decide)

/-- C4: classification of a trimmed command string applies the rules in
order: a `:C` suffix means cancel (even if the string also contains `:T`);
otherwise a `:I` suffix or a `:T` occurrence means direct action; anything
else is invalid and immediately yields the Failed response built from the
base command (the part before the first `:`), with nothing published to
the robot and the tracker state untouched. -/
theorem command_classification (st : BridgeState) (s : Str)
    (newOrderId : String) (pubOk : Bool)
    (htrim : trimSpace s = s) :
    (strHasSuffix s (str ":C") = true →
        handlePLCCommand st s newOrderId pubOk =
          some (handleCancelCommand st s pubOk)) ∧
    (strHasSuffix s (str ":C") = false →
        (strHasSuffix s (str ":I") = true ∨ strContains s (str ":T") = true) →
        handlePLCCommand st s newOrderId pubOk =
          handleDirectAction st s newOrderId pubOk) ∧
    (strHasSuffix s (str ":C") = false →
        strHasSuffix s (str ":I") = false → strContains s (str ":T") = false →
        handlePLCCommand st s newOrderId pubOk =
          some (st, ⟨[extractBaseCommand s ++ [':', 'F']], []⟩)) ∧
    extractBaseCommand s = s.takeWhile (fun c => !(c = ':')) := by
  refine ⟨fun hC => ?_, fun hC hD => ?_, fun hC hI hT => ?_,
    extractBaseCommand_eq_takeWhile s⟩
  · simp [handlePLCCommand, htrim, isCancelCommand, hC]
  · have hd : isDirectActionCommand s = true := by
      simp only [isDirectActionCommand, Bool.or_eq_true]
      exact hD
    simp [handlePLCCommand, htrim, isCancelCommand, hC, hd]
  · have hd : isDirectActionCommand s = false := by
      simp [isDirectActionCommand, hI, hT]
    simp [handlePLCCommand, htrim, isCancelCommand, hC, hd, plcResp]

/-- Witness for C4: the invalid command `FOO:X` is immediately rejected
with `FOO:F`, publishing nothing and creating no tracker entry. -/
theorem command_classification_witness :
    (strHasSuffix (str "FOO:X") (str ":C") = true →
        handlePLCCommand initState (str "FOO:X") "o1" true =
          some (handleCancelCommand initState (str "FOO:X") true)) ∧
    (strHasSuffix (str "FOO:X") (str ":C") = false →
        (strHasSuffix (str "FOO:X") (str ":I") = true ∨
          strContains (str "FOO:X") (str ":T") = true) →
        handlePLCCommand initState (str "FOO:X") "o1" true =
          handleDirectAction initState (str "FOO:X") "o1" true) ∧
    (strHasSuffix (str "FOO:X") (str ":C") = false →
        strHasSuffix (str "FOO:X") (str ":I") = false →
        strContains (str "FOO:X") (str ":T") = false →
        handlePLCCommand initState (str "FOO:X") "o1" true =
          some (initState, ⟨[extractBaseCommand (str "FOO:X") ++ [':', 'F']], []⟩)) ∧
    extractBaseCommand (str "FOO:X") =
      (str "FOO:X").takeWhile (fun c => !(c = ':')) :=
  command_classification initState (str "FOO:X") "o1" true (by decide)

/-- C6: the claim that the second `:`-field of a classified direct-action
command is always non-empty is false, and the code crashes where the claim
asserts safety: `B::T` is classified as a direct action, its second field
is empty, and the handler's `rune(parts[1][0])` indexes out of range (the
panic is modelled as the `none` result). -/
theorem direct_action_empty_second_field_panics :
    isDirectActionCommand (str "B::T") = true ∧
    (splitOnChar ':' (str "B::T"))[1]? = some [] ∧
    handlePLCCommand initState (str "B::T") "o1" true = none := by decide

/-- C7: a cancel command whose base matches no active order's base yields a
Failed response, publishes nothing to the robot, and leaves the tracker
state (both maps and the counter) unchanged. -/
theorem cancel_without_match_fails (st : BridgeState) (s : Str)
    (newOrderId : String) (pubOk : Bool)
    (htrim : trimSpace s = s)
    (hC : strHasSuffix s (str ":C") = true)
    (hnomatch : ∀ p ∈ st.activeOrders,
        extractBaseCommand p.2 ≠ extractBaseCommand s) :
    handlePLCCommand st s newOrderId pubOk = some (st, ⟨[plcResp s 'F'], []⟩) := by
  have hfind : st.activeOrders.find?
      (fun p => extractBaseCommand p.2 = extractBaseCommand s) = none := by
    rw [List.find?_eq_none]
    intro p hp
    simpa using hnomatch p hp
  simp [handlePLCCommand, htrim, isCancelCommand, hC, handleCancelCommand, hfind]

/-- Witness for C7: cancelling `MOVE` while only a `PICK` order is active
fails without touching anything. -/
theorem cancel_without_match_fails_witness :
    handlePLCCommand ⟨[("o1", str "PICK:I")], [], 7⟩ (str "MOVE:C") "o2" true =
      some (⟨[("o1", str "PICK:I")], [], 7⟩, ⟨[plcResp (str "MOVE:C") 'F'], []⟩) :=
  cancel_without_match_fails ⟨[("o1", str "PICK:I")], [], 7⟩ (str "MOVE:C")
    "o2" true (by decide) (by decide) (by decide)

/-- C10: every command classified as a direct action contains a `:`, so
splitting on `:` yields at least two fields and the handler's
fewer-than-two-fields Failed branch can never be taken. -/
theorem direct_action_split_has_two_fields {s : Str}
    (h : isDirectActionCommand s = true) :
    2 ≤ (splitOnChar ':' s).length :=
  length_splitOnChar_of_mem (colon_mem_of_isDirectAction h)

/-- Witness for C10 at the classified direct action `PICK:I`. -/
theorem direct_action_split_has_two_fields_witness :
    isDirectActionCommand (str "PICK:I") = true ∧
    2 ≤ (splitOnChar ':' (str "PICK:I")).length :=
  ⟨by decide, direct_action_split_has_two_fields (by decide)⟩

/-! ## Effect lemmas for the invariant and header-id proofs -/

theorem lookupA_eraseKey_of_none {k t : String} {m : List (String × Str)}
    (h : lookupA k m = none) : lookupA k (eraseKey t m) = none := by
  by_cases hk : k = t
  · subst hk; exact lookupA_eraseKey_self k m
  · rwa [lookupA_eraseKey_ne m hk]

theorem firstTerminal_cases (acts : List ActionEntry) :
    firstTerminal acts = none ∨ firstTerminal acts = some "FAILED" ∨
      firstTerminal acts = some "FINISHED" := by
  induction acts with
  | nil => exact Or.inl rfl
  | cons e rest ih =>
    match e with
    | none => simpa [firstTerminal] using ih
    | some s =>
      by_cases hs : s = "FAILED" ∨ s = "FINISHED"
      · rcases hs with hs | hs <;> simp [firstTerminal, hs]
      · simpa [firstTerminal, hs] using ih

theorem processActionStates_effects (st : BridgeState) (orderID : String)
    (cmd : Str) (acts : List ActionEntry) :
    ((processActionStates st orderID cmd acts).1.activeOrders = st.activeOrders ∨
      (processActionStates st orderID cmd acts).1.activeOrders =
        eraseKey orderID st.activeOrders) ∧
    (processActionStates st orderID cmd acts).1.canceledOrders = st.canceledOrders ∧
    (processActionStates st orderID cmd acts).1.headerIDCounter = st.headerIDCounter ∧
    (processActionStates st orderID cmd acts).2.robot = [] := by
  simp only [processActionStates]
  split_ifs <;> simp

theorem processCanceled_effects (st : BridgeState) (orderID : String)
    (ccmd : Str) (acts : List ActionEntry) :
    (processCanceledOrderStates st orderID ccmd acts).1.activeOrders =
      st.activeOrders ∧
    ((processCanceledOrderStates st orderID ccmd acts).1.canceledOrders =
        st.canceledOrders ∨
      (processCanceledOrderStates st orderID ccmd acts).1.canceledOrders =
        eraseKey orderID st.canceledOrders) ∧
    (processCanceledOrderStates st orderID ccmd acts).1.headerIDCounter =
      st.headerIDCounter ∧
    (processCanceledOrderStates st orderID ccmd acts).2.robot = [] := by
  rcases firstTerminal_cases acts with h | h | h
  · rw [processCanceled_none st orderID ccmd acts h]
    simp
  · rw [processCanceled_failed st orderID ccmd acts h]
    simp
  · rw [processCanceled_finished st orderID ccmd acts h]
    simp

theorem processActionStates_effects_ex (st : BridgeState) (orderID : String)
    (cmd : Str) (acts : List ActionEntry) :
    ((processActionStates st orderID cmd acts).1.activeOrders = st.activeOrders ∨
      ∃ t, (processActionStates st orderID cmd acts).1.activeOrders =
        eraseKey t st.activeOrders) ∧
    ((processActionStates st orderID cmd acts).1.canceledOrders = st.canceledOrders ∨
      ∃ t, (processActionStates st orderID cmd acts).1.canceledOrders =
        eraseKey t st.canceledOrders) ∧
    (processActionStates st orderID cmd acts).1.headerIDCounter = st.headerIDCounter ∧
    (processActionStates st orderID cmd acts).2.robot = [] := by
  obtain ⟨h1, h2, h3, h4⟩ := processActionStates_effects st orderID cmd acts
  exact ⟨h1.imp id (fun hh => ⟨orderID, hh⟩), Or.inl h2, h3, h4⟩

theorem processCanceled_effects_ex (st : BridgeState) (orderID : String)
    (ccmd : Str) (acts : List ActionEntry) :
    ((processCanceledOrderStates st orderID ccmd acts).1.activeOrders =
        st.activeOrders ∨
      ∃ t, (processCanceledOrderStates st orderID ccmd acts).1.activeOrders =
        eraseKey t st.activeOrders) ∧
    ((processCanceledOrderStates st orderID ccmd acts).1.canceledOrders =
        st.canceledOrders ∨
      ∃ t, (processCanceledOrderStates st orderID ccmd acts).1.canceledOrders =
        eraseKey t st.canceledOrders) ∧
    (processCanceledOrderStates st orderID ccmd acts).1.headerIDCounter =
      st.headerIDCounter ∧
    (processCanceledOrderStates st orderID ccmd acts).2.robot = [] := by
  obtain ⟨h1, h2, h3, h4⟩ := processCanceled_effects st orderID ccmd acts
  exact ⟨Or.inl h1, h2.imp id (fun hh => ⟨orderID, hh⟩), h3, h4⟩

theorem handleRobotState_effects (st : BridgeState) (r : StateReport) :
    ((handleRobotState st r).1.activeOrders = st.activeOrders ∨
      ∃ t, (handleRobotState st r).1.activeOrders = eraseKey t st.activeOrders) ∧
    ((handleRobotState st r).1.canceledOrders = st.canceledOrders ∨
      ∃ t, (handleRobotState st r).1.canceledOrders = eraseKey t st.canceledOrders) ∧
    (handleRobotState st r).1.headerIDCounter = st.headerIDCounter ∧
    (handleRobotState st r).2.robot = [] := by
  unfold handleRobotState
  repeat' split
  all_goals first
    | exact ⟨Or.inl rfl, Or.inl rfl, rfl, rfl⟩
    | exact processCanceled_effects_ex st _ _ _
    | exact processActionStates_effects_ex st _ _ _

theorem handleDirectAction_effects {st : BridgeState} {cmd : Str} {oid : String}
    {ok : Bool} {st' : BridgeState} {out : Output}
    (h : handleDirectAction st cmd oid ok = some (st', out)) :
    ((st'.activeOrders = st.activeOrders ∧ st'.canceledOrders = st.canceledOrders) ∨
      (st'.activeOrders = insertA oid cmd st.activeOrders ∧
        st'.canceledOrders = st.canceledOrders)) ∧
    st.headerIDCounter ≤ st'.headerIDCounter ∧
    (∀ m ∈ out.robot, st.headerIDCounter < m.headerId ∧
        m.headerId ≤ st'.headerIDCounter) ∧
    out.robot.length ≤ 1 := by
  unfold handleDirectAction at h
  simp only [] at h
  repeat' split at h
  all_goals first
    | exact Option.noConfusion h
    | (injection h with h0
       injection h0 with h1 h2
       subst h1
       subst h2
       first
         | exact ⟨Or.inl ⟨rfl, rfl⟩, le_refl _, by simp, by simp⟩
         | exact ⟨Or.inl ⟨rfl, rfl⟩, Nat.le_succ _, by simp, by simp⟩
         | exact ⟨Or.inr ⟨rfl, rfl⟩, Nat.le_succ _,
             by simp [RobotMsg.headerId], by simp⟩)

theorem handleCancelCommand_effects (st : BridgeState) (cmd : Str) (ok : Bool) :
    (((handleCancelCommand st cmd ok).1.activeOrders = st.activeOrders ∧
        (handleCancelCommand st cmd ok).1.canceledOrders = st.canceledOrders) ∨
      ∃ t, (handleCancelCommand st cmd ok).1.activeOrders =
          eraseKey t st.activeOrders ∧
        (handleCancelCommand st cmd ok).1.canceledOrders =
          insertA t cmd st.canceledOrders) ∧
    st.headerIDCounter ≤ (handleCancelCommand st cmd ok).1.headerIDCounter ∧
    (∀ m ∈ (handleCancelCommand st cmd ok).2.robot,
        st.headerIDCounter < m.headerId ∧
        m.headerId ≤ (handleCancelCommand st cmd ok).1.headerIDCounter) ∧
    (handleCancelCommand st cmd ok).2.robot.length ≤ 1 := by
  unfold handleCancelCommand
  simp only []
  repeat' split
  all_goals first
    | exact ⟨Or.inl ⟨rfl, rfl⟩, le_refl _, by simp, by simp⟩
    | exact ⟨Or.inl ⟨rfl, rfl⟩, Nat.le_succ _, by simp, by simp⟩
    | exact ⟨Or.inr ⟨_, rfl, rfl⟩, Nat.le_succ _,
        by simp [RobotMsg.headerId], by simp⟩

theorem handlePLCCommand_effects {st : BridgeState} {payload : Str} {oid : String}
    {ok : Bool} {st' : BridgeState} {out : Output}
    (h : handlePLCCommand st payload oid ok = some (st', out)) :
    ((st'.activeOrders = st.activeOrders ∧ st'.canceledOrders = st.canceledOrders) ∨
      (∃ v, st'.activeOrders = insertA oid v st.activeOrders ∧
          st'.canceledOrders = st.canceledOrders) ∨
      (∃ t v, st'.activeOrders = eraseKey t st.activeOrders ∧
          st'.canceledOrders = insertA t v st.canceledOrders)) ∧
    st.headerIDCounter ≤ st'.headerIDCounter ∧
    (∀ m ∈ out.robot, st.headerIDCounter < m.headerId ∧
        m.headerId ≤ st'.headerIDCounter) ∧
    out.robot.length ≤ 1 := by
  unfold handlePLCCommand at h
  simp only [] at h
  split at h
  · injection h with h0
    obtain ⟨hmap, hle, hrb, hlen⟩ :=
      handleCancelCommand_effects st (trimSpace payload) ok
    rw [h0] at hmap hle hrb hlen
    refine ⟨?_, hle, hrb, hlen⟩
    exact hmap.imp id (fun hh => Or.inr (hh.imp (fun t ht => ⟨trimSpace payload, ht⟩)))
  · split at h
    · injection h with h0
      injection h0 with h1 h2
      subst h1
      subst h2
      exact ⟨Or.inl ⟨rfl, rfl⟩, le_refl _, by simp, by simp⟩
    · obtain ⟨hmap, hle, hrb, hlen⟩ := handleDirectAction_effects h
      refine ⟨?_, hle, hrb, hlen⟩
      exact hmap.imp id (fun hh => Or.inl ⟨trimSpace payload, hh⟩)

theorem step_header {st : BridgeState} {e : Event} {st' : BridgeState} {out : Output}
    (h : step st e = some (st', out)) :
    st.headerIDCounter ≤ st'.headerIDCounter ∧
    (∀ m ∈ out.robot, st.headerIDCounter < m.headerId ∧
        m.headerId ≤ st'.headerIDCounter) ∧
    out.robot.length ≤ 1 := by
  cases e with
  | plc payload oid ok =>
    obtain ⟨-, hle, hrb, hlen⟩ := handlePLCCommand_effects h
    exact ⟨hle, hrb, hlen⟩
  | robot r =>
    have h0 : handleRobotState st r = (st', out) := by
      simpa [step] using h
    obtain ⟨-, -, hcnt, hrob⟩ := handleRobotState_effects st r
    rw [h0] at hcnt hrob
    refine ⟨le_of_eq hcnt.symm, ?_, ?_⟩
    · intro m hm
      rw [show out.robot = [] from hrob] at hm
      cases hm
    · rw [show out.robot = [] from hrob]
      simp

theorem pairwise_of_length_le_one {α : Type} {p : α → α → Prop} {l : List α}
    (h : l.length ≤ 1) : List.Pairwise p l := by
  match l with
  | [] => exact List.Pairwise.nil
  | [a] => simp
  | a :: b :: t => simp at h

theorem runRobot_bounds (es : List Event) : ∀ st : BridgeState,
    (∀ m ∈ runRobot st es, st.headerIDCounter < m.headerId) ∧
    List.Pairwise (fun a b => a.headerId < b.headerId) (runRobot st es) := by
  induction es with
  | nil =>
    intro st
    constructor
    · intro m hm
      simp [runRobot] at hm
    · simp [runRobot]
  | cons e es ih =>
    intro st
    simp only [runRobot]
    cases hstep : step st e with
    | none => simp
    | some pr =>
      obtain ⟨st', out⟩ := pr
      obtain ⟨hle, hrb, hlen⟩ := step_header hstep
      obtain ⟨ih1, ih2⟩ := ih st'
      constructor
      · intro m hm
        rcases List.mem_append.mp hm with h1 | h2
        · exact (hrb m h1).1
        · exact lt_of_le_of_lt hle (ih1 m h2)
      · rw [List.pairwise_append]
        refine ⟨pairwise_of_length_le_one hlen, ih2, ?_⟩
        intro a ha b hb
        exact lt_of_le_of_lt (hrb a ha).2 (ih1 b hb)

/-- C8: across any sequence of handled inbound events starting from the
initial state, the header ids of the robot-bound messages (orders and
cancel instant actions share the one counter) are strictly increasing:
each message's headerId exceeds that of every robot-bound message sent
before it. -/
theorem robot_header_ids_strictly_increase (events : List Event) :
    List.Pairwise (fun a b => a.headerId < b.headerId)
      (runRobot initState events) :=
  (runRobot_bounds events initState).2

/-- C5: in every reachable tracker state, no orderId is simultaneously a
key of ActiveOrders and of CanceledOrders. -/
theorem tracker_maps_disjoint {st : BridgeState} (h : Reachable st) (k : String) :
    lookupA k st.activeOrders = none ∨ lookupA k st.canceledOrders = none := by
  induction h with
  | init => exact Or.inl rfl
  | next hr hfresh hstep ih =>
    rename_i st0 st' e out
    cases e with
    | plc payload oid ok =>
      obtain ⟨hmap, -, -, -⟩ := handlePLCCommand_effects hstep
      obtain ⟨hf1, hf2⟩ := hfresh
      rcases hmap with ⟨ha, hc⟩ | ⟨v, ha, hc⟩ | ⟨t, v, ha, hc⟩
      · rw [ha, hc]
        exact ih
      · by_cases hk : k = oid
        · subst hk
          right
          rw [hc]
          exact hf2
        · rcases ih with ihl | ihr
          · left
            rw [ha, lookupA_insertA_ne v _ hk]
            exact ihl
          · right
            rw [hc]
            exact ihr
      · by_cases hk : k = t
        · subst hk
          left
          rw [ha]
          exact lookupA_eraseKey_self k st0.activeOrders
        · rcases ih with ihl | ihr
          · left
            rw [ha, lookupA_eraseKey_ne _ hk]
            exact ihl
          · right
            rw [hc, lookupA_insertA_ne _ _ hk]
            exact ihr
    | robot r =>
      have h0 : handleRobotState st0 r = (st', out) := by
        simpa [step] using hstep
      obtain ⟨ha, hc, -, -⟩ := handleRobotState_effects st0 r
      rw [h0] at ha hc
      rcases ih with ihl | ihr
      · left
        rcases ha with ha | ⟨t, ha⟩
        · rw [show st'.activeOrders = st0.activeOrders from ha]
          exact ihl
        · rw [show st'.activeOrders = eraseKey t st0.activeOrders from ha]
          exact lookupA_eraseKey_of_none ihl
      · right
        rcases hc with hc | ⟨t, hc⟩
        · rw [show st'.canceledOrders = st0.canceledOrders from hc]
          exact ihr
        · rw [show st'.canceledOrders = eraseKey t st0.canceledOrders from hc]
          exact lookupA_eraseKey_of_none ihr

/-- Witness for C5 at the reachable state obtained by handling the command
`PICK:I` from the initial state. -/
theorem tracker_maps_disjoint_witness :
    lookupA "o1" (BridgeState.mk [("o1", str "PICK:I")] [] 1).activeOrders = none ∨
      lookupA "o1" (BridgeState.mk [("o1", str "PICK:I")] [] 1).canceledOrders = none :=
  tracker_maps_disjoint
    (@Reachable.next initState (BridgeState.mk [("o1", str "PICK:I")] [] 1)
      (Event.plc (str "PICK:I") "o1" true)
      ⟨[], [RobotMsg.order 1 "o1" (str "Roboligent Robin - Inference")
        [⟨str "inference_name", str "PICK"⟩]]⟩
      Reachable.init ⟨rfl, rfl⟩ (by decide)) "o1"

end DirectBridge
